import Mathlib

/-!
Verification of the MSX CAS Packager container codec and audio pulse encoder.

This file gives a shallow embedding of the program's data model and
operations over lists of naturals (each byte a `Nat`, with the `u8`/`u32`
ranges handled explicitly where they matter), and proves properties about
the embedded definitions.

Source correspondence:
* the container codec comes from `src/bin/tape.rs` (`Block`, `File`,
  `Files::next`, `Tape::parse_blocks`, `Tape::from_bytes`, `LoadError`);
* the pulse encoder and WAVE writer come from `src/bin/wav.rs` (`Exporter`
  and its `write_*` methods);
* the per-block export loop comes from `src/main.rs` (`export`).
-/

namespace MCP

/-- The 8-byte synchronization marker `{0x1F,0xA6,0xDE,0xBA,0xCC,0x13,0x7D,0x74}`
that frames the blocks of a CAS container (`src/bin/tape.rs`). -/
def marker : List Nat := [0x1f, 0xa6, 0xde, 0xba, 0xcc, 0x13, 0x7d, 0x74]

/-- A container block: the byte payload carved between two sync markers
(or between the last marker and the end of the buffer).
Embeds `struct Block { data: Vec<u8> }` of `src/bin/tape.rs`. -/
structure Block where
  data : List Nat
  deriving Repr, DecidableEq

/-- Embeds `Block::is_bin_header` of `src/bin/tape.rs`:
`self.data.len() >= 16 && self.data[..10] == [0xd0; 10]`. -/
def Block.is_bin_header (b : Block) : Bool :=
  decide (16 ≤ b.data.length) &&
    decide (b.data.take 10 =
      [0xd0, 0xd0, 0xd0, 0xd0, 0xd0, 0xd0, 0xd0, 0xd0, 0xd0, 0xd0])

/-- A UTF-8 continuation byte: `0x80..=0xBF`. -/
def isCont (b : Nat) : Bool := decide (0x80 ≤ b) && decide (b ≤ 0xbf)

/-- UTF-8 validity of a byte sequence, exactly as checked by Rust's
`std::str::from_utf8`: ASCII bytes stand alone; 2-byte sequences start with
`0xC2..=0xDF`; 3-byte sequences start with `0xE0` (second byte `0xA0..=0xBF`),
`0xE1..=0xEC` or `0xEE..=0xEF` (second byte `0x80..=0xBF`), or `0xED`
(second byte `0x80..=0x9F`, excluding surrogates); 4-byte sequences start with
`0xF0` (second byte `0x90..=0xBF`), `0xF1..=0xF3`, or `0xF4` (second byte
`0x80..=0x8F`, capping at U+10FFFF); all later bytes of a sequence are
continuation bytes. -/
def validUtf8 : List Nat → Bool
  | [] => true
  | b :: rest =>
    if b ≤ 0x7f then validUtf8 rest
    else if 0xc2 ≤ b && b ≤ 0xdf then
      match rest with
      | b1 :: r => isCont b1 && validUtf8 r
      | _ => false
    else if b = 0xe0 then
      match rest with
      | b1 :: b2 :: r =>
        (decide (0xa0 ≤ b1) && decide (b1 ≤ 0xbf)) && isCont b2 && validUtf8 r
      | _ => false
    else if (0xe1 ≤ b && b ≤ 0xec) || (0xee ≤ b && b ≤ 0xef) then
      match rest with
      | b1 :: b2 :: r => isCont b1 && isCont b2 && validUtf8 r
      | _ => false
    else if b = 0xed then
      match rest with
      | b1 :: b2 :: r =>
        (decide (0x80 ≤ b1) && decide (b1 ≤ 0x9f)) && isCont b2 && validUtf8 r
      | _ => false
    else if b = 0xf0 then
      match rest with
      | b1 :: b2 :: b3 :: r =>
        (decide (0x90 ≤ b1) && decide (b1 ≤ 0xbf)) && isCont b2 && isCont b3 &&
          validUtf8 r
      | _ => false
    else if 0xf1 ≤ b && b ≤ 0xf3 then
      match rest with
      | b1 :: b2 :: b3 :: r => isCont b1 && isCont b2 && isCont b3 && validUtf8 r
      | _ => false
    else if b = 0xf4 then
      match rest with
      | b1 :: b2 :: b3 :: r =>
        (decide (0x80 ≤ b1) && decide (b1 ≤ 0x8f)) && isCont b2 && isCont b3 &&
          validUtf8 r
      | _ => false
    else false

/-- Embeds `Block::file_name` of `src/bin/tape.rs`:
`if self.is_bin_header() { from_utf8(&self.data[10..16]).ok() } else { None }`.
A Rust `&str` is represented by its UTF-8 byte sequence, so the name is
returned as the byte list `data[10..16]` when those bytes are valid UTF-8. -/
def Block.file_name (b : Block) : Option (List Nat) :=
  if b.is_bin_header then
    if validUtf8 ((b.data.drop 10).take 6) then some ((b.data.drop 10).take 6)
    else none
  else none

/-- Embeds `enum File` of `src/bin/tape.rs`: `Bin(String, usize, usize, usize,
&[u8])` (name, begin/load address, end address, start address, data) and
`Custom(&[u8])`.  The `String` name is represented by its UTF-8 bytes. -/
inductive File where
  | bin (name : List Nat) (begin_ end_ start_ : Nat) (data : List Nat)
  | custom (data : List Nat)
  deriving Repr, DecidableEq

/-- Embeds the full run of the `Files` iterator of `src/bin/tape.rs`
(`impl Iterator for Files`, `fn next`).  The iterator's cursor `self.i` over
`tape.blocks` is represented by recursing on the block-list suffix starting
at `i` (`blocks[i]` is the head, `blocks[i+1]` the head of the tail, cursor
advance by 1 or 2 drops 1 or 2 elements; the `while self.i < len` exit is the
`[]` case).  `none` models a Rust panic: `file_name().unwrap()` on a header
block whose name bytes are not UTF-8, indexing `blocks[self.i+1]` past the
end, or indexing `content[0..6]` of a data block shorter than 6 bytes.
The address fields are `content[0] | content[1] << 8`, etc., and the file
data is `content[6..]`. -/
def filesOf : List Block → Option (List File)
  | [] => some []
  | block :: rest =>
    if block.is_bin_header then
      match block.file_name with
      | none => none
      | some name =>
        match rest with
        | [] => none
        | nextB :: rest2 =>
          match nextB.data with
          | c0 :: c1 :: c2 :: c3 :: c4 :: c5 :: d =>
            (filesOf rest2).map (fun fs =>
              File.bin name (c0 ||| (c1 <<< 8)) (c2 ||| (c3 <<< 8))
                (c4 ||| (c5 <<< 8)) d :: fs)
          | _ => none
    else
      (filesOf rest).map (fun fs => File.custom block.data :: fs)

/-- Embeds `struct Tape { blocks: Vec<Block> }` of `src/bin/tape.rs`. -/
structure Tape where
  blocks : List Block
  deriving Repr, DecidableEq

/-- Embeds `enum LoadError` of `src/bin/tape.rs`.  Its single variant wraps a
`std::io::Error`; the payload is irrelevant to the claims and is dropped. -/
inductive LoadError where
  | io
  deriving Repr, DecidableEq

/-- Embeds the marker scan of `Tape::parse_blocks` (`src/bin/tape.rs`):
`for win in bytes.windows(8) { if win == MARKER { hindex.push(i); } i += 1; }`.
The windows iterator is represented by recursion on the byte list: at each
position with at least 8 bytes remaining the 8-byte window is compared with
the marker; with fewer than 8 bytes remaining the iterator yields nothing
and the loop ends. -/
def scanMarkers : List Nat → Nat → List Nat
  | [], _ => []
  | x :: xs, i =>
    if 8 ≤ (x :: xs).length then
      if (x :: xs).take 8 = marker then i :: scanMarkers xs (i + 1)
      else scanMarkers xs (i + 1)
    else []

/-- The `hindex` vector computed by `Tape::parse_blocks`: the marker scan
started at position 0. -/
def hindex (bytes : List Nat) : List Nat := scanMarkers bytes 0

/-- Embeds the block-construction loop of `Tape::parse_blocks`
(`src/bin/tape.rs`): for each `i` in `0..hindex.len()`,
`from = hindex[i] + 8`, `to = if i == hindex.len() - 1 { bytes.len() } else
{ hindex[i+1] }`, block payload `bytes[from..to]`.  The Rust slice
`&bytes[from..to]` is `(bytes.take to).drop from` (the marker has no
self-overlap, so `from ≤ to ≤ bytes.len()` always holds at these calls). -/
def Tape.parse_blocks (bytes : List Nat) : List Block :=
  let hs := hindex bytes
  (List.range hs.length).map fun i =>
    let lo := hs.getD i 0 + 8
    let hi := if i = hs.length - 1 then bytes.length else hs.getD (i + 1) 0
    Block.mk ((bytes.take hi).drop lo)

/-- Embeds `Tape::from_bytes` of `src/bin/tape.rs`:
`Ok(Tape { blocks: Tape::parse_blocks(bytes) })`. -/
def Tape.from_bytes (bytes : List Nat) : Except LoadError Tape :=
  Except.ok (Tape.mk (Tape.parse_blocks bytes))

/-- The list of files produced by fully running `tape.files()`
(`Tape::files` of `src/bin/tape.rs` starts the iterator at `i = 0`);
`none` models a panic during iteration. -/
def Tape.files_list (t : Tape) : Option (List File) := filesOf t.blocks

/-- Following the words of the spec: the marker occurs at offset `i` iff the
8 bytes of the buffer starting at `i` are exactly the marker. -/
def markerAt (bytes : List Nat) (i : Nat) : Bool :=
  decide ((bytes.drop i).take 8 = marker)

/-- Following the words of the spec: the ordered offsets `m[0..n)` of all
occurrences of the 8-byte marker in the buffer. -/
def markerOffsets (bytes : List Nat) : List Nat :=
  (List.range bytes.length).filter (markerAt bytes)

/-- Following the words of the spec: for marker occurrences at offsets
`m[0..n)`, the Blocks with payload `[m[i]+8, m[i+1])` for `i < n-1` and a
final payload `[m[n-1]+8, len)`. -/
def blocksSpec (bytes : List Nat) : List Block :=
  let m := markerOffsets bytes
  (List.range m.length).map fun i =>
    let lo := m.getD i 0 + 8
    let hi := if i + 1 < m.length then m.getD (i + 1) 0 else bytes.length
    Block.mk ((bytes.take hi).drop lo)

lemma markerAt_eq_false_of_short {bytes : List Nat} {j : Nat}
    (h : bytes.length < j + 8) : markerAt bytes j = false := by
  simp only [markerAt, decide_eq_false_iff_not]
  intro he
  have hl := congrArg List.length he
  simp only [List.length_take, List.length_drop, marker, List.length_cons,
    List.length_nil] at hl
  omega

lemma markerAt_cons_succ (x : Nat) (xs : List Nat) (j : Nat) :
    markerAt (x :: xs) (j + 1) = markerAt xs j := by
  simp [markerAt, List.drop_succ_cons]

lemma scanMarkers_eq (xs : List Nat) :
    ∀ i, scanMarkers xs i =
      ((List.range xs.length).filter (markerAt xs)).map (· + i) := by
  induction xs with
  | nil => intro i; simp [scanMarkers]
  | cons x xs ih =>
    intro i
    by_cases h8 : 8 ≤ (x :: xs).length
    · have hm0 : markerAt (x :: xs) 0 = decide ((x :: xs).take 8 = marker) := by
        simp [markerAt]
      rw [scanMarkers, if_pos h8, List.length_cons, List.range_succ_eq_map,
        List.filter_cons, List.filter_map]
      have hcomp : (markerAt (x :: xs) ∘ Nat.succ) = markerAt xs := by
        funext j
        simp [Function.comp, Nat.succ_eq_add_one, markerAt_cons_succ]
      rw [hcomp]
      by_cases hm : (x :: xs).take 8 = marker
      · rw [if_pos hm, if_pos (by rw [hm0]; simp only [decide_eq_true_eq]; exact hm)]
        rw [ih (i + 1)]
        simp only [List.map_cons, List.map_map, Nat.zero_add]
        congr 1
        apply List.map_congr_left
        intro a _
        simp [Function.comp, Nat.succ_eq_add_one]
        omega
      · rw [if_neg hm,
          if_neg (by rw [hm0]; simp only [decide_eq_true_eq]; exact hm)]
        rw [ih (i + 1), List.map_map]
        apply List.map_congr_left
        intro a _
        simp [Function.comp, Nat.succ_eq_add_one]
        omega
    · rw [scanMarkers, if_neg h8]
      have : (List.range (x :: xs).length).filter (markerAt (x :: xs)) = [] := by
        rw [List.filter_eq_nil_iff]
        intro a ha
        rw [List.mem_range] at ha
        simp only [List.length_cons] at h8 ha
        rw [markerAt_eq_false_of_short (by simp only [List.length_cons]; omega)]
        simp
      rw [this]
      simp

lemma hindex_eq (bytes : List Nat) : hindex bytes = markerOffsets bytes := by
  rw [hindex, scanMarkers_eq, markerOffsets]
  simp

/-- C2: for every input buffer, the block scanner produces exactly the
blocks described by the spec: with `m[0..n)` the ordered offsets of all
marker occurrences, payload `[m[i]+8, m[i+1])` for `i < n-1` and a final
payload `[m[n-1]+8, len)`; a buffer with zero markers produces zero blocks
(and `Tape::from_bytes` reports no error: it has no error path at all, see
`c9_from_bytes_total`). -/
theorem c2_parse_blocks_spec (bytes : List Nat) :
    Tape.parse_blocks bytes = blocksSpec bytes ∧
      (markerOffsets bytes = [] → Tape.parse_blocks bytes = []) := by
  have hmain : Tape.parse_blocks bytes = blocksSpec bytes := by
    rw [Tape.parse_blocks, blocksSpec, hindex_eq]
    apply List.map_congr_left
    intro a ha
    rw [List.mem_range] at ha
    have hcond : (if a = (markerOffsets bytes).length - 1 then bytes.length
          else (markerOffsets bytes).getD (a + 1) 0) =
        (if a + 1 < (markerOffsets bytes).length
          then (markerOffsets bytes).getD (a + 1) 0 else bytes.length) := by
      by_cases hc : a + 1 < (markerOffsets bytes).length
      · rw [if_neg (by omega), if_pos hc]
      · rw [if_pos (by omega), if_neg hc]
    simp only [hcond]
  refine ⟨hmain, fun hz => ?_⟩
  rw [hmain, blocksSpec, hz]
  simp

/-- Witness for `c2_parse_blocks_spec`: on the concrete buffer `[0,1,2]`
(no markers) the scanner produces zero blocks. -/
theorem c2_parse_blocks_spec_witness : Tape.parse_blocks [0, 1, 2] = [] :=
  (c2_parse_blocks_spec [0, 1, 2]).2 (by decide)

/-- The byte buffer of the C1 test vector: marker, ten `0xD0`, `"FOOBAR"`,
marker, `00 80 08 80 00 00`, `01 02 03 04 05 06 07`. -/
def c1_bytes : List Nat :=
  [0x1f, 0xa6, 0xde, 0xba, 0xcc, 0x13, 0x7d, 0x74,
   0xd0, 0xd0, 0xd0, 0xd0, 0xd0, 0xd0, 0xd0, 0xd0, 0xd0, 0xd0,
   0x46, 0x4f, 0x4f, 0x42, 0x41, 0x52,
   0x1f, 0xa6, 0xde, 0xba, 0xcc, 0x13, 0x7d, 0x74,
   0x00, 0x80, 0x08, 0x80, 0x00, 0x00,
   0x01, 0x02, 0x03, 0x04, 0x05, 0x06, 0x07]

/-- C1: decoding the buffer consisting of the 8-byte marker, ten `0xD0`
bytes, the ASCII bytes "FOOBAR", the marker again, `00 80 08 80 00 00`, and
`01 02 03 04 05 06 07` yields exactly one File, namely `Bin` with name
"FOOBAR", load address `0x8000`, end address `0x8008`, start address
`0x0000` and data `[01,02,03,04,05,06,07]`, and the file sequence ends
after it. -/
theorem c1_decode_foobar :
    ∃ t : Tape, Tape.from_bytes c1_bytes = Except.ok t ∧
      Tape.files_list t =
        some [File.bin [0x46, 0x4f, 0x4f, 0x42, 0x41, 0x52] 0x8000 0x8008 0x0000
          [0x01, 0x02, 0x03, 0x04, 0x05, 0x06, 0x07]] :=
  ⟨Tape.mk (Tape.parse_blocks c1_bytes), rfl, by decide⟩

/-- A well-formed header block (ten `0xD0` bytes followed by the ASCII name
"FOOBAR") used to exhibit the behaviour of the decoder on a header block
with no following data block. -/
def c3_header_block : Block :=
  Block.mk [0xd0, 0xd0, 0xd0, 0xd0, 0xd0, 0xd0, 0xd0, 0xd0, 0xd0, 0xd0,
    0x46, 0x4f, 0x4f, 0x42, 0x41, 0x52]

/-- Counterexample to C3: on the block sequence whose single (hence last)
block is a header block, decoding the file sequence does not return a
`MalformedContainer` error — the code's only decode error type,
`LoadError`, has no such variant at all (see `c9_from_bytes_total`) — it
panics: `&self.tape.blocks[self.i+1]` indexes out of bounds, modelled by
`filesOf` returning `none` rather than any value. -/
theorem c3_counterexample :
    c3_header_block.is_bin_header = true ∧ filesOf [c3_header_block] = none := by
  decide

/-- C3 as amended: whenever the file decoder reaches a header block whose
name bytes are not valid UTF-8, or which has no following block, or whose
following data block has fewer than 6 bytes, the decode panics
(`unwrap()` of `None`, or an out-of-bounds index) and yields no result
(`none`) — it does not return a `MalformedContainer` error, which does not
exist in the code. -/
theorem c3_amended (b : Block) (rest : List Block)
    (hb : b.is_bin_header = true)
    (hbad : b.file_name = none ∨ rest = [] ∨
      ∃ nb rest2, rest = nb :: rest2 ∧ nb.data.length < 6) :
    filesOf (b :: rest) = none := by
  cases hfn : b.file_name with
  | none => simp [filesOf, hb, hfn]
  | some name =>
    rcases hbad with h | h | ⟨nb, rest2, hr, hlen⟩
    · rw [hfn] at h; cases h
    · subst h; simp [filesOf, hb, hfn]
    · subst hr
      obtain ⟨ndata⟩ := nb
      simp only [Block.data] at hlen
      rcases ndata with _ | ⟨x0, _ | ⟨x1, _ | ⟨x2, _ | ⟨x3, _ | ⟨x4, _ | ⟨x5, tl⟩⟩⟩⟩⟩⟩
      all_goals try (exfalso; simp at hlen; omega)
      all_goals simp [filesOf, hb, hfn]

/-- Witness for `c3_amended`: a header block whose name bytes
`FF FF FF FF FF FF` are not valid UTF-8, followed by a data block, makes
the decode panic (yield `none`). -/
theorem c3_amended_witness :
    filesOf [Block.mk [0xd0, 0xd0, 0xd0, 0xd0, 0xd0, 0xd0, 0xd0, 0xd0, 0xd0,
      0xd0, 0xff, 0xff, 0xff, 0xff, 0xff, 0xff], Block.mk [0, 0, 0, 0, 0, 0]] =
      none :=
  c3_amended _ _ (by decide) (Or.inl (by decide))

/-- C9: `Tape::from_bytes` is total and never fails: for every input byte
buffer it returns `Ok` with the parsed tape, and the only variant of
`LoadError` is `Io`, so no malformed-container condition is ever reported
at decode time. -/
theorem c9_from_bytes_total :
    (∀ bytes : List Nat,
        Tape.from_bytes bytes = Except.ok (Tape.mk (Tape.parse_blocks bytes))) ∧
    (∀ e : LoadError, e = LoadError.io) :=
  ⟨fun _ => rfl, fun e => by cases e; rfl⟩

/-- `SHORT_PULSE` frequency constant of `src/bin/wav.rs` (2400 Hz). -/
def SHORT_PULSE : Nat := 2400

/-- `LONG_PULSE` frequency constant of `src/bin/wav.rs` (1200 Hz). -/
def LONG_PULSE : Nat := 1200

/-- `SHORT_HEADER` pulse-count constant of `src/bin/wav.rs`. -/
def SHORT_HEADER : Nat := 4000

/-- `LONG_HEADER` pulse-count constant of `src/bin/wav.rs`. -/
def LONG_HEADER : Nat := 16000

/-- Embeds `struct Exporter` of `src/bin/wav.rs`: baud rate, sample rate and
the internal sample buffer. -/
structure Exporter where
  bauds : Nat
  sample_rate : Nat
  buffer : List Nat
  deriving Repr, DecidableEq

/-- Embeds `Exporter::new`: 1200 bauds, 43200 samples per second, empty
buffer. -/
def Exporter.new : Exporter :=
  { bauds := 1200, sample_rate := 43200, buffer := [] }

/-- Embeds `Exporter::write_pulse` of `src/bin/wav.rs`:
`len = sample_rate / (bauds * (freq / 1200))` (integer arithmetic), then one
cycle of a synthesized sine wave of `len` samples is appended.  The
per-sample amplitude `(sin(2π·i/len) * 127.0) as i8 as u8 ^ 0x80` is 32-bit
floating-point arithmetic; the claims under verification concern only how
many samples a pulse appends and where pulses are placed, so the amplitude
is abstracted as a parameter `sf : Nat → Nat → Nat` (pulse length and sample
index to sample value), and every theorem below holds for all `sf`. -/
def Exporter.write_pulse (sf : Nat → Nat → Nat) (e : Exporter)
    (freq : Nat) : Exporter :=
  let len := e.sample_rate / (e.bauds * (freq / 1200))
  { e with buffer := e.buffer ++ (List.range len).map (sf len) }

/-- Embeds `Exporter::write_silence`: append `pulses` flat samples `0x80`. -/
def Exporter.write_silence (e : Exporter) (pulses : Nat) : Exporter :=
  { e with buffer := e.buffer ++ List.replicate pulses 0x80 }

/-- Embeds `Exporter::write_short_silence`: `sample_rate` flat samples. -/
def Exporter.write_short_silence (e : Exporter) : Exporter :=
  e.write_silence e.sample_rate

/-- Embeds `Exporter::write_long_silence`: `sample_rate * 2` flat samples. -/
def Exporter.write_long_silence (e : Exporter) : Exporter :=
  e.write_silence (e.sample_rate * 2)

/-- Embeds `Exporter::write_header`: `pulses * bauds / 1200` short pulses. -/
def Exporter.write_header (sf : Nat → Nat → Nat) (e : Exporter)
    (pulses : Nat) : Exporter :=
  let nPulses := pulses * e.bauds / 1200
  (List.range nPulses).foldl (fun acc _ => acc.write_pulse sf SHORT_PULSE) e

/-- Embeds `Exporter::write_short_header`. -/
def Exporter.write_short_header (sf : Nat → Nat → Nat) (e : Exporter) :
    Exporter :=
  e.write_header sf SHORT_HEADER

/-- Embeds `Exporter::write_long_header`. -/
def Exporter.write_long_header (sf : Nat → Nat → Nat) (e : Exporter) :
    Exporter :=
  e.write_header sf LONG_HEADER

/-- Embeds the 8-iteration bit loop of `Exporter::write_byte`: at each step,
if `bits & 0x01 > 0` two short pulses are written, else one long pulse, and
then `bits` is shifted right by one. -/
def Exporter.write_bits (sf : Nat → Nat → Nat) :
    Exporter → Nat → Nat → Exporter
  | e, _, 0 => e
  | e, bits, n + 1 =>
    let e2 := if 0 < (bits &&& 0x01) then
        (e.write_pulse sf SHORT_PULSE).write_pulse sf SHORT_PULSE
      else e.write_pulse sf LONG_PULSE
    Exporter.write_bits sf e2 (bits >>> 1) n

/-- Embeds `Exporter::write_byte` of `src/bin/wav.rs`: one long pulse (start
bit), the 8-iteration bit loop, then 4 trailing short pulses. -/
def Exporter.write_byte (sf : Nat → Nat → Nat) (e : Exporter)
    (byte : Nat) : Exporter :=
  let e1 := e.write_pulse sf LONG_PULSE
  let e2 := Exporter.write_bits sf e1 byte 8
  (List.range 4).foldl (fun acc _ => acc.write_pulse sf SHORT_PULSE) e2

/-- Embeds `Exporter::write_data`: every byte of `data` through
`write_byte`, in order. -/
def Exporter.write_data (sf : Nat → Nat → Nat) (e : Exporter)
    (data : List Nat) : Exporter :=
  data.foldl (fun acc b => acc.write_byte sf b) e

/-- Little-endian encoding of a `u16` value as 2 bytes (the value is taken
bytewise modulo 2^16, matching Rust's wrapping cast). -/
def u16le (n : Nat) : List Nat := [n % 256, n / 256 % 256]

/-- Little-endian encoding of a `u32` value as 4 bytes (the value is taken
bytewise modulo 2^32, matching Rust's wrapping cast). -/
def u32le (n : Nat) : List Nat :=
  [n % 256, n / 256 % 256, n / 65536 % 256, n / 16777216 % 256]

/-- The ASCII bytes of the tag written by `write!(w, "RIFF")`. -/
def riffTag : List Nat := [0x52, 0x49, 0x46, 0x46]

/-- The ASCII bytes of the tag written by `write!(w, "WAVE")`. -/
def waveTag : List Nat := [0x57, 0x41, 0x56, 0x45]

/-- The ASCII bytes of the tag written by `write!(w, "fmt ")`. -/
def fmtTag : List Nat := [0x66, 0x6d, 0x74, 0x20]

/-- The ASCII bytes of the tag written by `write!(w, "data")`. -/
def dataTag : List Nat := [0x64, 0x61, 0x74, 0x61]

/-- Embeds `Exporter::write_wave` of `src/bin/wav.rs`: the 44-byte RIFF/WAVE
header.  Note the source sets `file_len = data_len + 44`, i.e. the length of
the whole output file, and writes that value after the `RIFF` tag. -/
def Exporter.write_wave (e : Exporter) : List Nat :=
  let data_len := e.buffer.length
  let file_len := data_len + 44
  riffTag ++ u32le file_len ++ waveTag ++ fmtTag ++ u32le 16 ++ u16le 1 ++
    u16le 1 ++ u32le e.sample_rate ++ u32le e.sample_rate ++ u16le 8 ++
    u16le 8 ++ dataTag ++ u32le data_len

/-- Embeds `Exporter::export` of `src/bin/wav.rs` (renamed: `export` is a
Lean keyword): the WAVE header followed by the raw sample buffer. -/
def Exporter.export_bytes (e : Exporter) : List Nat := e.write_wave ++ e.buffer

/-- Modelled from the spec: `Block::is_file_header` belongs to the `tape`
module compiled into `src/main.rs`, which is not under `src/` (only its
caller is).  Per the spec (§3), it is true iff the payload begins with ten
bytes of value `0xD0` followed by a 6-byte name field.  This coincides with
`Block::is_bin_header` of `src/bin/tape.rs`. -/
def Block.is_file_header (b : Block) : Bool :=
  decide (b.data.take 10 =
      [0xd0, 0xd0, 0xd0, 0xd0, 0xd0, 0xd0, 0xd0, 0xd0, 0xd0, 0xd0]) &&
    decide (16 ≤ b.data.length)

/-- Modelled from the spec: `Block::data_without_prefix` belongs to the
`tape` module compiled into `src/main.rs`, which is not under `src/` (only
its caller is).  Per the spec (§4.4), it is the block's payload excluding
the container framing (sync-marker) prefix.  Our `Block` stores exactly the
payload carved after the marker (see `Tape.parse_blocks`), so the framing
prefix is already absent and the payload is returned unchanged. -/
def Block.data_without_framing (b : Block) : List Nat := b.data

/-- Embeds the block-encoding loop of `export` in `src/main.rs`: for each
block of the tape in order, a header block gets a long silence and a long
header, any other block a short silence and a short header, and then every
byte of the block (without the framing prefix) is written via `write_data`
(which calls `write_byte` per byte). -/
def export_blocks (sf : Nat → Nat → Nat) (blocks : List Block) : Exporter :=
  blocks.foldl (fun e block =>
    (if block.is_file_header
      then (e.write_long_silence).write_long_header sf
      else (e.write_short_silence).write_short_header sf).write_data sf
      ( Block.data_without_framing block)) Exporter.new

/-- Following the words of the claims: one short pulse (2400 Hz), which is
18 samples long. -/
def shortPulseC (sf : Nat → Nat → Nat) : List Nat := (List.range 18).map (sf 18)

/-- Following the words of the claims: one long pulse (1200 Hz), which is
36 samples long. -/
def longPulseC (sf : Nat → Nat → Nat) : List Nat := (List.range 36).map (sf 36)

/-- Following the words of the claims: a 1 bit is two short pulses, a 0 bit
is one long pulse. -/
def bitCode (sf : Nat → Nat → Nat) (bit : Bool) : List Nat :=
  if bit then shortPulseC sf ++ shortPulseC sf else longPulseC sf

/-- Following the words of the claims: the pulse sequence of one encoded
byte — one long start pulse, the 8 bits least-significant-first, then 4
trailing short pulses. -/
def byteCode (sf : Nat → Nat → Nat) (b : Nat) : List Nat :=
  longPulseC sf ++
    ((List.range 8).map fun k => bitCode sf (b.testBit k)).flatten ++
    (shortPulseC sf ++ shortPulseC sf ++ shortPulseC sf ++ shortPulseC sf)

/-- Following the words of the claims: a header of `pulses` short pulses. -/
def headerC (sf : Nat → Nat → Nat) (pulses : Nat) : List Nat :=
  (List.replicate pulses (shortPulseC sf)).flatten

/-- Following the words of the claims: the samples one block contributes to
the audio export — long silence (2×43200 samples of `0x80`) and long header
(16000 short pulses) for a header block, short silence (43200 samples) and
short header (4000 short pulses) otherwise, then the byte encoding of the
block's payload. -/
def blockCode (sf : Nat → Nat → Nat) (b : Block) : List Nat :=
  (if b.is_file_header then
      List.replicate (2 * 43200) 0x80 ++ headerC sf 16000
    else List.replicate 43200 0x80 ++ headerC sf 4000) ++
    (( Block.data_without_framing b).map (byteCode sf)).flatten

lemma write_pulse_long (sf : Nat → Nat → Nat) (buf : List Nat) :
    Exporter.write_pulse sf ⟨1200, 43200, buf⟩ LONG_PULSE =
      ⟨1200, 43200, buf ++ longPulseC sf⟩ := by
  rw [Exporter.write_pulse, longPulseC]
  norm_num [LONG_PULSE]

lemma write_pulse_short (sf : Nat → Nat → Nat) (buf : List Nat) :
    Exporter.write_pulse sf ⟨1200, 43200, buf⟩ SHORT_PULSE =
      ⟨1200, 43200, buf ++ shortPulseC sf⟩ := by
  rw [Exporter.write_pulse, shortPulseC]
  norm_num [SHORT_PULSE]

lemma foldl_short_pulses (sf : Nat → Nat → Nat) (n : Nat) :
    ∀ buf : List Nat,
      (List.range n).foldl
          (fun (acc : Exporter) (_ : Nat) => acc.write_pulse sf SHORT_PULSE)
          ⟨1200, 43200, buf⟩ =
        ⟨1200, 43200, buf ++ headerC sf n⟩ := by
  induction n with
  | zero => intro buf; simp [headerC]
  | succ n ih =>
    intro buf
    rw [List.range_succ, List.foldl_append, ih buf]
    simp only [List.foldl_cons, List.foldl_nil, write_pulse_short]
    rw [headerC, headerC, List.replicate_succ', List.flatten_append]
    simp [List.append_assoc]

lemma write_header_eq (sf : Nat → Nat → Nat) (buf : List Nat) (pulses : Nat) :
    Exporter.write_header sf ⟨1200, 43200, buf⟩ pulses =
      ⟨1200, 43200, buf ++ headerC sf pulses⟩ := by
  show (List.range (pulses * 1200 / 1200)).foldl
      (fun (acc : Exporter) (_ : Nat) => acc.write_pulse sf SHORT_PULSE)
      (⟨1200, 43200, buf⟩ : Exporter) = _
  rw [show pulses * 1200 / 1200 = pulses by omega]
  exact foldl_short_pulses sf pulses buf

lemma write_bits_eq (sf : Nat → Nat → Nat) :
    ∀ (n bits : Nat) (buf : List Nat),
      Exporter.write_bits sf ⟨1200, 43200, buf⟩ bits n =
        ⟨1200, 43200,
          buf ++ ((List.range n).map fun k => bitCode sf (bits.testBit k)).flatten⟩ := by
  intro n
  induction n with
  | zero => intro bits buf; simp [Exporter.write_bits]
  | succ n ih =>
    intro bits buf
    rw [Exporter.write_bits]
    have h01 : bits &&& 0x01 = bits % 2 := Nat.and_one_is_mod bits
    have hsr : bits >>> 1 = bits / 2 := Nat.shiftRight_one bits
    by_cases hb : 0 < (bits &&& 0x01)
    · have hbit : bits.testBit 0 = true := by
        rw [Nat.testBit_zero]
        rw [h01] at hb
        simp only [decide_eq_true_eq]
        omega
      simp only [if_pos hb, write_pulse_short, hsr, ih]
      rw [List.range_succ_eq_map, List.map_cons, List.flatten_cons, hbit,
        List.map_map]
      have hcomp : ((fun k => bitCode sf (bits.testBit k)) ∘ Nat.succ) =
          fun k => bitCode sf ((bits / 2).testBit k) := by
        funext k
        simp [Function.comp, Nat.succ_eq_add_one, Nat.testBit_succ]
      rw [hcomp]
      simp [bitCode, List.append_assoc]
    · have hbit : bits.testBit 0 = false := by
        rw [Nat.testBit_zero]
        rw [h01] at hb
        simp only [decide_eq_false_iff_not]
        omega
      simp only [if_neg hb, write_pulse_long, hsr, ih]
      rw [List.range_succ_eq_map, List.map_cons, List.flatten_cons, hbit,
        List.map_map]
      have hcomp : ((fun k => bitCode sf (bits.testBit k)) ∘ Nat.succ) =
          fun k => bitCode sf ((bits / 2).testBit k) := by
        funext k
        simp [Function.comp, Nat.succ_eq_add_one, Nat.testBit_succ]
      rw [hcomp]
      simp [bitCode, List.append_assoc]

lemma write_byte_eq (sf : Nat → Nat → Nat) (b : Nat) (buf : List Nat) :
    Exporter.write_byte sf ⟨1200, 43200, buf⟩ b =
      ⟨1200, 43200, buf ++ byteCode sf b⟩ := by
  show (List.range 4).foldl
      (fun (acc : Exporter) (_ : Nat) => acc.write_pulse sf SHORT_PULSE)
      (Exporter.write_bits sf
        (Exporter.write_pulse sf ⟨1200, 43200, buf⟩ LONG_PULSE) b 8) = _
  rw [write_pulse_long, write_bits_eq, foldl_short_pulses]
  rw [byteCode]
  congr 1
  have h4 : headerC sf 4 =
      shortPulseC sf ++ shortPulseC sf ++ shortPulseC sf ++ shortPulseC sf := by
    simp [headerC, List.replicate, List.append_assoc]
  rw [h4]
  simp [List.append_assoc]

lemma write_data_eq (sf : Nat → Nat → Nat) :
    ∀ (data : List Nat) (buf : List Nat),
      Exporter.write_data sf ⟨1200, 43200, buf⟩ data =
        ⟨1200, 43200, buf ++ (data.map (byteCode sf)).flatten⟩ := by
  intro data
  induction data with
  | nil => intro buf; simp [Exporter.write_data]
  | cons d ds ih =>
    intro buf
    show (d :: ds).foldl (fun (acc : Exporter) (b : Nat) => acc.write_byte sf b)
        (⟨1200, 43200, buf⟩ : Exporter) = _
    rw [List.foldl_cons, write_byte_eq]
    have := ih (buf ++ byteCode sf d)
    rw [Exporter.write_data] at this
    rw [this]
    simp [List.append_assoc]

/-- C7: for every byte `b`, `write_byte(b)` appends exactly this pulse
sequence to the buffer: one long pulse (1200 Hz), then for each of the 8
bits of `b` least-significant-first two short pulses (2400 Hz) if the bit
is 1 and one long pulse if it is 0, then 4 trailing short pulses. -/
theorem c7_write_byte_pulses (sf : Nat → Nat → Nat) (e : Exporter) (b : Nat)
    (h1 : e.bauds = 1200) (h2 : e.sample_rate = 43200) (hb : b < 256) :
    (e.write_byte sf b).buffer = e.buffer ++ byteCode sf b := by
  obtain ⟨bauds, rate, buf⟩ := e
  simp only at h1 h2
  subst h1
  subst h2
  rw [write_byte_eq]

/-- Witness for `c7_write_byte_pulses` at byte `0xA5` on a fresh exporter. -/
theorem c7_write_byte_pulses_witness :
    (Exporter.new.write_byte (fun _ _ => 0) 0xa5).buffer =
      Exporter.new.buffer ++ byteCode (fun _ _ => 0) 0xa5 :=
  c7_write_byte_pulses (fun _ _ => 0) Exporter.new 0xa5 rfl rfl (by decide)

/-- C8: with baud = 1200 and sample rate = 43200, each `write_pulse` call
appends exactly `sample_rate / (baud * (freq / 1200))` samples (integer
arithmetic): 36 samples for a long pulse (1200 Hz) and 18 samples for a
short pulse (2400 Hz). -/
theorem c8_write_pulse_samples (sf : Nat → Nat → Nat) (e : Exporter)
    (h1 : e.bauds = 1200) (h2 : e.sample_rate = 43200) :
    ((e.write_pulse sf LONG_PULSE).buffer.length =
        e.buffer.length + e.sample_rate / (e.bauds * (LONG_PULSE / 1200)) ∧
      (e.write_pulse sf LONG_PULSE).buffer.length = e.buffer.length + 36) ∧
    ((e.write_pulse sf SHORT_PULSE).buffer.length =
        e.buffer.length + e.sample_rate / (e.bauds * (SHORT_PULSE / 1200)) ∧
      (e.write_pulse sf SHORT_PULSE).buffer.length = e.buffer.length + 18) := by
  obtain ⟨bauds, rate, buf⟩ := e
  dsimp only at h1 h2
  subst h1
  subst h2
  refine ⟨⟨?_, ?_⟩, ?_, ?_⟩
  · show (Exporter.write_pulse sf ⟨1200, 43200, buf⟩ LONG_PULSE).buffer.length =
        buf.length + (43200 : Nat) / (1200 * (LONG_PULSE / 1200))
    rw [write_pulse_long]
    simp [longPulseC, LONG_PULSE]
  · show (Exporter.write_pulse sf ⟨1200, 43200, buf⟩ LONG_PULSE).buffer.length =
        buf.length + 36
    rw [write_pulse_long]
    simp [longPulseC]
  · show (Exporter.write_pulse sf ⟨1200, 43200, buf⟩ SHORT_PULSE).buffer.length =
        buf.length + (43200 : Nat) / (1200 * (SHORT_PULSE / 1200))
    rw [write_pulse_short]
    simp [shortPulseC, SHORT_PULSE]
  · show (Exporter.write_pulse sf ⟨1200, 43200, buf⟩ SHORT_PULSE).buffer.length =
        buf.length + 18
    rw [write_pulse_short]
    simp [shortPulseC]

/-- Witness for `c8_write_pulse_samples` on a fresh exporter. -/
theorem c8_write_pulse_samples_witness :
    ((Exporter.new.write_pulse (fun _ _ => 0) LONG_PULSE).buffer.length =
        Exporter.new.buffer.length + 36) ∧
    ((Exporter.new.write_pulse (fun _ _ => 0) SHORT_PULSE).buffer.length =
        Exporter.new.buffer.length + 18) :=
  ⟨(c8_write_pulse_samples (fun _ _ => 0) Exporter.new rfl rfl).1.2,
   (c8_write_pulse_samples (fun _ _ => 0) Exporter.new rfl rfl).2.2⟩

lemma flatten_map_length_const {α : Type} (f : α → List Nat) (c : Nat) :
    ∀ l : List α, (∀ a ∈ l, (f a).length = c) →
      ((l.map f).flatten).length = c * l.length := by
  intro l
  induction l with
  | nil => intro _; simp
  | cons x xs ih =>
    intro h
    simp only [List.map_cons, List.flatten_cons, List.length_append,
      List.length_cons]
    rw [h x (List.mem_cons_self x xs), ih (fun a ha => h a (List.mem_cons_of_mem x ha))]
    ring

/-- C10: for every byte value `b`, `write_byte(b)` appends exactly 396
samples to the buffer (36 for the start bit, 36 per data bit whether 0 or
1, 72 for the 4 stop pulses), so every encoded byte occupies the same
duration. -/
theorem c10_write_byte_length (sf : Nat → Nat → Nat) (e : Exporter) (b : Nat)
    (h1 : e.bauds = 1200) (h2 : e.sample_rate = 43200) (hb : b < 256) :
    (e.write_byte sf b).buffer.length = e.buffer.length + 396 := by
  obtain ⟨bauds, rate, buf⟩ := e
  dsimp only at h1 h2
  subst h1
  subst h2
  show (Exporter.write_byte sf ⟨1200, 43200, buf⟩ b).buffer.length =
    buf.length + 396
  rw [write_byte_eq]
  have hlong : (longPulseC sf).length = 36 := by simp [longPulseC]
  have hshort : (shortPulseC sf).length = 18 := by simp [shortPulseC]
  have hbits :
      (((List.range 8).map fun k => bitCode sf (b.testBit k)).flatten).length =
        36 * 8 := by
    have hconst : ∀ a ∈ List.range 8,
        ((fun k => bitCode sf (b.testBit k)) a).length = 36 := by
      intro k _
      cases hbit : b.testBit k <;> simp [bitCode, hbit, shortPulseC, longPulseC]
    rw [flatten_map_length_const (fun k => bitCode sf (b.testBit k)) 36
      (List.range 8) hconst]
    simp
  show (buf ++ byteCode sf b).length = buf.length + 396
  rw [byteCode]
  simp only [List.length_append, hlong, hshort, hbits]

/-- Witness for `c10_write_byte_length` at byte `0x37` on a fresh
exporter. -/
theorem c10_write_byte_length_witness :
    (Exporter.new.write_byte (fun _ _ => 0) 0x37).buffer.length =
      Exporter.new.buffer.length + 396 :=
  c10_write_byte_length (fun _ _ => 0) Exporter.new 0x37 rfl rfl (by decide)

/-- Counterexample to C4: the claim says the u32 after the `RIFF` tag is the
total file length minus 8 (36 for an empty sample buffer), but the code
writes `data_len + 44` — the total file length itself — so for an empty
buffer it writes 44, not 36. -/
theorem c4_counterexample :
    ((Exporter.new.export_bytes).drop 4).take 4 ≠
      u32le (Exporter.new.export_bytes.length - 8) := by
  decide

/-- C4 as amended: the u32 written immediately after the `RIFF` tag equals
the total output file length itself, `L + 44` (not `L + 44 - 8`); exporting
with an empty sample buffer writes a 44-byte file whose RIFF length field
is 44. -/
theorem c4_amended (e : Exporter) :
    ((e.export_bytes).drop 4).take 4 = u32le (e.buffer.length + 44) ∧
      Exporter.new.export_bytes.length = 44 ∧
      ((Exporter.new.export_bytes).drop 4).take 4 = u32le 44 :=
  ⟨rfl, by decide, by decide⟩

/-- Counterexample to C5: the claim says the u16 at bytes 32..34 of the
output (the `block_align` position of a WAVE header) equals 1, but the code
writes `bits_per_sample * channels = 8` there (its own test asserts 8). -/
theorem c5_counterexample :
    ((Exporter.new.export_bytes).drop 32).take 2 ≠ u16le 1 := by
  decide

/-- C5 as amended: in the exported WAVE header the u32 at bytes 28..32
(byte rate) equals the sample rate 43200 and the u16 at bytes 34..36
(bits per sample) equals 8, as claimed, but the u16 at bytes 32..34 (the
block-align position) is written as 8, not 1. -/
theorem c5_amended (e : Exporter) (h : e.sample_rate = 43200) :
    ((e.export_bytes).drop 28).take 4 = u32le 43200 ∧
      ((e.export_bytes).drop 32).take 2 = u16le 8 ∧
      ((e.export_bytes).drop 34).take 2 = u16le 8 := by
  obtain ⟨bauds, rate, buf⟩ := e
  simp only at h
  subst h
  exact ⟨rfl, rfl, rfl⟩

/-- Witness for `c5_amended` on a fresh exporter. -/
theorem c5_amended_witness :
    ((Exporter.new.export_bytes).drop 28).take 4 = u32le 43200 ∧
      ((Exporter.new.export_bytes).drop 32).take 2 = u16le 8 ∧
      ((Exporter.new.export_bytes).drop 34).take 2 = u16le 8 :=
  c5_amended Exporter.new rfl

lemma export_step_eq (sf : Nat → Nat → Nat) (block : Block) (buf : List Nat) :
    Exporter.write_data sf
        (if block.is_file_header then
          Exporter.write_long_header sf
            (Exporter.write_long_silence ⟨1200, 43200, buf⟩)
        else
          Exporter.write_short_header sf
            (Exporter.write_short_silence ⟨1200, 43200, buf⟩))
        ( Block.data_without_framing block) =
      ⟨1200, 43200, buf ++ blockCode sf block⟩ := by
  by_cases hh : block.is_file_header
  · rw [if_pos hh]
    have hsil : Exporter.write_long_silence (⟨1200, 43200, buf⟩ : Exporter) =
        ⟨1200, 43200, buf ++ List.replicate (2 * 43200) 0x80⟩ := by
      rw [Exporter.write_long_silence, Exporter.write_silence]
      norm_num
    rw [hsil, Exporter.write_long_header, write_header_eq, write_data_eq]
    rw [blockCode, if_pos hh]
    rw [show LONG_HEADER = 16000 from rfl]
    simp only [List.append_assoc]
  · rw [if_neg hh]
    have hsil : Exporter.write_short_silence (⟨1200, 43200, buf⟩ : Exporter) =
        ⟨1200, 43200, buf ++ List.replicate 43200 0x80⟩ := by
      rw [Exporter.write_short_silence, Exporter.write_silence]
    rw [hsil, Exporter.write_short_header, write_header_eq, write_data_eq]
    rw [blockCode, if_neg hh]
    rw [show SHORT_HEADER = 4000 from rfl]
    simp only [List.append_assoc]

lemma export_blocks_aux (sf : Nat → Nat → Nat) :
    ∀ (blocks : List Block) (buf : List Nat),
      blocks.foldl (fun (e : Exporter) (block : Block) =>
          (if block.is_file_header
            then (e.write_long_silence).write_long_header sf
            else (e.write_short_silence).write_short_header sf).write_data sf
            ( Block.data_without_framing block))
          ⟨1200, 43200, buf⟩ =
        ⟨1200, 43200, buf ++ (blocks.map (blockCode sf)).flatten⟩ := by
  intro blocks
  induction blocks with
  | nil => intro buf; simp
  | cons b bs ih =>
    intro buf
    rw [List.foldl_cons, export_step_eq, ih]
    simp [List.append_assoc]

/-- C6: audio export processes the tape's blocks in order; each header
block contributes a long silence (2×43200 samples of `0x80`) followed by a
long header of 16000 short pulses, each non-header block a short silence
(43200 samples of `0x80`) followed by a short header of 4000 short pulses,
and in both cases every byte of the block's payload (excluding the
container framing prefix) is then encoded via `write_byte`. -/
theorem c6_export_structure (sf : Nat → Nat → Nat) (t : Tape) :
    (export_blocks sf t.blocks).buffer = (t.blocks.map (blockCode sf)).flatten := by
  rw [export_blocks]
  rw [show (Exporter.new : Exporter) = ⟨1200, 43200, []⟩ from rfl]
  rw [export_blocks_aux]
  simp

end MCP
